import Mathlib

/-!
Verification development for the `ultrasonic_sensor` component
(`us_types.hpp`, `us_processor.cpp`, `us_driver.cpp`, `us_sensor.cpp`).

Modelling conventions:
* `float` values are modelled as exact rationals (`ℚ`).  All float literals of
  the source (`0.4f`, `0.7f`, `0.6f`, `5.0f`, `0.0343f`, `0.001f`) are modelled
  by the corresponding rational.  The source only compares ratios whose
  denominators are at most 255 against these thresholds, so the exact-rational
  comparisons decide identically with the float comparisons of the source.
* `std::sqrt` appears only in `get_std_dev`, whose result is only ever
  compared against a non-negative limit; `sqrt(v) > limit ↔ v > limit²`
  for `limit ≥ 0`, so the comparison is modelled on squares.
* machine integers are modelled as `Nat`/`Int`, with explicit wrap-around
  (`% 2^64`, `% 2^32`) where the source can overflow.
* the hardware/timer collaborators (`IGpioHAL`, `ITimerHAL`) are modelled as a
  list of oracle answers consumed one per HAL call; an empty list means the
  modelled run is cut short, in which case the driver model returns `none`.
-/

namespace UsSpec

/-- `UsResult` from `us_types.hpp`: the eight outcome tags. -/
inductive UsResult where
  | OK
  | WEAK_SIGNAL
  | TIMEOUT
  | OUT_OF_RANGE
  | HIGH_VARIANCE
  | INSUFFICIENT_SAMPLES
  | ECHO_STUCK
  | HW_FAULT
deriving DecidableEq, Repr

/-- `Reading` from `us_types.hpp`: a tagged outcome plus a distance (float,
modelled as `ℚ`). -/
structure Reading where
  result : UsResult
  cm : ℚ
deriving DecidableEq, Repr

/-- `is_success` from `us_types.hpp` (`r == OK || r == WEAK_SIGNAL`). -/
def is_success (r : UsResult) : Bool :=
  decide (r = UsResult.OK) || decide (r = UsResult.WEAK_SIGNAL)

/-- `Reading::operator==` from `us_types.hpp`: tags must match, and the
distances must differ by less than `0.001f` only for the success tags. -/
def req (a b : Reading) : Bool :=
  decide (a.result = b.result) &&
    ((!decide (a.result = UsResult.OK) && !decide (a.result = UsResult.WEAK_SIGNAL)) ||
      decide (|a.cm - b.cm| < 1 / 1000))

/-- `Filter` from `us_types.hpp`. -/
inductive Filter where
  | MEDIAN
  | DOMINANT_CLUSTER
deriving DecidableEq, Repr

/-- `UsConfig` from `us_types.hpp` (defaults as in the source). -/
structure UsConfig where
  ping_interval_ms : ℕ := 70
  ping_duration_us : ℕ := 20
  timeout_us : ℕ := 30000
  filter : Filter := Filter.MEDIAN
  min_distance_cm : ℚ := 10
  max_distance_cm : ℚ := 200
  max_dev_cm : ℚ := 15
  warmup_time_ms : ℕ := 600
deriving DecidableEq, Repr

/-! ## Sample aggregator (`us_processor.cpp`) -/

/-- Ascending sort used by `reduce_median` / `reduce_dominant_cluster`
(`std::sort(v, v + n)`; any ascending sort of rationals produces the same
list, since `≤` on `ℚ` is a total antisymmetric order). -/
def sortAsc (v : List ℚ) : List ℚ :=
  v.insertionSort (fun a b => a ≤ b)

/-- `UsProcessor::reduce_median`: sort ascending, pick the element at index
`n / 2`. -/
def reduce_median (v : List ℚ) : ℚ :=
  (sortAsc v).getD (v.length / 2) 0

/-- The inner loop of `UsProcessor::reduce_dominant_cluster` starting at the
element `x`: accumulate `(sum, size)` of the contiguous run of values whose
difference from `x` is at most `CLUSTER_DELTA_CM = 5.0`, stopping at the first
value outside the delta (the source `break`s because the array is sorted). -/
def clusterRun (x : ℚ) : List ℚ → ℚ × ℕ
  | [] => (0, 0)
  | y :: ys =>
    if |y - x| ≤ 5 then
      let p := clusterRun x ys
      (y + p.1, p.2 + 1)
    else (0, 0)

/-- The outer loop of `reduce_dominant_cluster`: one `(sum, size)` pair per
start index of the sorted array. -/
def dcPairs : List ℚ → List (ℚ × ℕ)
  | [] => []
  | x :: rest => clusterRun x (x :: rest) :: dcPairs rest

/-- The best-cluster selection of `reduce_dominant_cluster`: keep a candidate
only if its size is at least `CLUSTER_MIN_SIZE = 2` and strictly exceeds the
best size so far (ties keep the first found). -/
def dcBest (ps : List (ℚ × ℕ)) : ℚ × ℕ :=
  ps.foldl (fun best p => if 2 ≤ p.2 ∧ best.2 < p.2 then p else best) (0, 0)

/-- `UsProcessor::reduce_dominant_cluster`: sort, find the dominant cluster,
return its arithmetic mean; if no cluster has at least 2 members, fall back to
the median of the (already sorted) array. -/
def reduce_dominant_cluster (v : List ℚ) : ℚ :=
  let w := sortAsc v
  let b := dcBest (dcPairs w)
  if b.2 = 0 then reduce_median w else b.1 / (b.2 : ℚ)

/-- Mean of a list (both accumulation orders agree in exact arithmetic). -/
def meanQ (v : List ℚ) : ℚ := v.sum / (v.length : ℚ)

/-- Population variance as computed by `UsProcessor::get_std_dev` (before the
final `sqrt`). -/
def varianceOf (v : List ℚ) : ℚ :=
  (v.map (fun x => (x - meanQ v) ^ 2)).sum / (v.length : ℚ)

/-- Models `get_std_dev(samples, n) > limit` of the source: for a non-negative
`limit` (the configuration invariant), `sqrt(variance) > limit ↔
variance > limit²`; the comparison is performed on squares to stay exact. -/
def std_dev_exceeds (v : List ℚ) (limit : ℚ) : Bool :=
  decide (limit ^ 2 < varianceOf v)

/-- The valid-sample extraction loop shared by `UsProcessor::process` and
`UsSensor::read_distance`: distances of the success readings, in order. -/
def validSamples (pings : List Reading) : List ℚ :=
  (pings.filter (fun p => is_success p.result)).map Reading.cm

/-- Count of `TIMEOUT` pings (the source counts them among the non-success
readings; a success reading never carries the `TIMEOUT` tag). -/
def countTimeouts (pings : List Reading) : ℕ :=
  pings.countP (fun p => decide (p.result = UsResult.TIMEOUT))

/-- Count of `OUT_OF_RANGE` pings. -/
def countOutOfRange (pings : List Reading) : ℕ :=
  pings.countP (fun p => decide (p.result = UsResult.OUT_OF_RANGE))

/-- `UsProcessor::process(const Reading*, uint8_t, const UsConfig&)` from
`src/us_processor.cpp` (the full-`Reading`-array encoding, refinement of the
`INSUFFICIENT_SAMPLES` case included): the batch length plays the role of
`total_pings`. -/
def process (pings : List Reading) (cfg : UsConfig) : Reading :=
  if pings.length = 0 then ⟨UsResult.INSUFFICIENT_SAMPLES, 0⟩ else
  let samples := validSamples pings
  let valid_count := samples.length
  let timeouts := countTimeouts pings
  let out_of_range := countOutOfRange pings
  let ratio : ℚ := (valid_count : ℚ) / (pings.length : ℚ)
  if ratio < 2 / 5 then
    if timeouts ≤ out_of_range ∧ 0 < out_of_range then ⟨UsResult.OUT_OF_RANGE, 0⟩
    else if 0 < timeouts then ⟨UsResult.TIMEOUT, 0⟩
    else ⟨UsResult.INSUFFICIENT_SAMPLES, 0⟩
  else if std_dev_exceeds samples cfg.max_dev_cm then ⟨UsResult.HIGH_VARIANCE, 0⟩
  else
    let distance_cm :=
      if cfg.filter = Filter.MEDIAN then reduce_median samples
      else reduce_dominant_cluster samples
    if 7 / 10 ≤ ratio then
      if std_dev_exceeds samples (cfg.max_dev_cm * (3 / 5)) then
        ⟨UsResult.WEAK_SIGNAL, distance_cm⟩
      else ⟨UsResult.OK, distance_cm⟩
    else ⟨UsResult.WEAK_SIGNAL, distance_cm⟩

/-- `UsProcessor::process(const float*, uint8_t, uint8_t, const UsConfig&)`
from the float-array encoding of the processor (historical variant): takes the
extracted valid distances plus the total attempted count; returns a plain
`INSUFFICIENT_SAMPLES` on rejection (refinement is the orchestrator's job in
this encoding). -/
def process_floats (raw : List ℚ) (total : ℕ) (cfg : UsConfig) : Reading :=
  let count := raw.length
  let ratio : ℚ := if 0 < total then (count : ℚ) / (total : ℚ) else 0
  if ratio < 2 / 5 then ⟨UsResult.INSUFFICIENT_SAMPLES, 0⟩
  else if std_dev_exceeds raw cfg.max_dev_cm then ⟨UsResult.HIGH_VARIANCE, 0⟩
  else
    let distance_cm :=
      if cfg.filter = Filter.MEDIAN then reduce_median raw
      else reduce_dominant_cluster raw
    if 7 / 10 ≤ ratio then
      if std_dev_exceeds raw (cfg.max_dev_cm * (3 / 5)) then
        ⟨UsResult.WEAK_SIGNAL, distance_cm⟩
      else ⟨UsResult.OK, distance_cm⟩
    else ⟨UsResult.WEAK_SIGNAL, distance_cm⟩

/-- The Stage-2 rejection refinement performed by the float-array variant of
`UsSensor::read_distance` after calling the processor. -/
def refine_reading (r : Reading) (timeouts out_of_range : ℕ) : Reading :=
  if r.result = UsResult.INSUFFICIENT_SAMPLES then
    if timeouts ≤ out_of_range ∧ 0 < out_of_range then ⟨UsResult.OUT_OF_RANGE, 0⟩
    else if 0 < timeouts then ⟨UsResult.TIMEOUT, 0⟩
    else ⟨r.result, r.cm⟩
  else ⟨r.result, r.cm⟩


/-! ## Specification-side restatement of the dominant-cluster reduction (C7)

These definitions follow the wording of the specification (sorted runs grown
by `takeWhile`, the first run of strictly largest size, minimum size 2, median
fallback); they are compared against the source translation
`reduce_dominant_cluster` above. -/

/-- First pair with the strictly largest size of at least 2 (ties keep the
first found), `(0, 0)` if no pair has size at least 2. -/
def firstMax : List (ℚ × ℕ) → ℚ × ℕ
  | [] => (0, 0)
  | p :: ps => if 2 ≤ p.2 ∧ (firstMax ps).2 ≤ p.2 then p else firstMax ps

/-- From each start index of the sorted array, the contiguous run grown while
each value differs from the run's first (smallest) value by at most 5 cm. -/
def clusterRunsSpec (w : List ℚ) : List (List ℚ) :=
  (List.range w.length).map (fun i =>
    (w.drop i).takeWhile (fun y => decide (|y - (w.drop i).headD 0| ≤ 5)))

/-- The largest member count among the runs. -/
def maxRunSize (runs : List (List ℚ)) : ℕ := (runs.map List.length).foldr max 0

/-- The dominant-cluster reduction as the specification words it: the first
run of strictly largest size wins and must have at least 2 members; its
arithmetic mean is returned; otherwise the median (sorted element at index
`n / 2`) of the same samples. -/
def dominant_cluster_spec (v : List ℚ) : ℚ :=
  let w := sortAsc v
  let runs := clusterRunsSpec w
  let m := maxRunSize runs
  if m < 2 then (sortAsc v).getD (v.length / 2) 0
  else match runs.find? (fun r => decide (r.length = m)) with
    | some r => r.sum / (r.length : ℚ)
    | none => 0

/-! ## Ping timing engine (`us_driver.cpp`)

`UsDriver::ping_once` talks to the two collaborators (`IGpioHAL`,
`ITimerHAL`) through a fixed repertoire of calls.  Each call is answered by
the environment; we model an environment as a list of `Ans` records consumed
one per HAL call (`err` is the `esp_err_t` of a fallible call, `lvl` the level
delivered by `get_level`, `now` the timestamp delivered by `get_now_us`; the
components not relevant to a given call are simply unused).  The model
returns, besides the `Reading`, the trace of calls it performed (paired with
the answer each consumed) and the unconsumed environment suffix.  `none`
means the environment list was exhausted before the cycle finished. -/

/-- `ESP_OK`. -/
def espOk : Int := 0

/-- `ESP_FAIL` (generic failure, `-1`). -/
def espFail : Int := -1

/-- `ESP_ERR_TIMEOUT` (`0x107`). -/
def espTimeoutErr : Int := 263

/-- The two pins owned by the driver. -/
inductive Pin where
  | trig
  | echo
deriving DecidableEq, Repr

/-- `gpio_mode_t` as used by `ping_once`. -/
inductive GpioMode where
  | output
  | input
deriving DecidableEq, Repr

/-- One oracle answer from the modelled hardware environment. -/
structure Ans where
  err : Int := 0
  lvl : Bool := false
  now : ℕ := 0
deriving DecidableEq, Repr

/-- The HAL calls `ping_once` can perform. -/
inductive HalCall where
  | setDirection (pin : Pin) (mode : GpioMode)
  | setLevel (pin : Pin) (lvl : Bool)
  | getLevel (pin : Pin)
  | delayUs (us : ℕ)
  | delayMs (ms : ℕ)
  | getNow
deriving DecidableEq, Repr

/-- One trace entry: the call performed and the answer it consumed. -/
abbrev Ev := HalCall × Ans

/-- `uint64_t` wrap-around. -/
def wrap64 (n : ℕ) : ℕ := n % (2 ^ 64)

/-- `uint64_t` subtraction `a - b` (as in `get_now_us() - start`). -/
def sub64 (a b : ℕ) : ℕ := (wrap64 a + 2 ^ 64 - wrap64 b) % (2 ^ 64)

/-- `SOUND_SPEED_CM_PER_US = 0.0343f`. -/
def soundSpeed : ℚ := 343 / 10000

/-- `UsDriver::is_echo_stuck`: read the echo level; a HAL error is swallowed
(`return false`, "HAL error will be caught in trigger phase"). -/
def is_echo_stuck : List Ans → Option (Bool × List Ev × List Ans)
  | [] => none
  | a :: l =>
    some (if a.err ≠ espOk then false else a.lvl, [(HalCall.getLevel Pin.echo, a)], l)

/-- `UsDriver::trigger`: drive TRIG high, hold `pulse_duration_us`, drive it
low; the first failing step's code is returned, otherwise the code of the
final `set_level`. -/
def trigger (pulse_duration_us : ℕ) : List Ans → Option (Int × List Ev × List Ans)
  | [] => none
  | a :: l =>
    if a.err ≠ espOk then some (a.err, [(HalCall.setLevel Pin.trig true, a)], l)
    else match l with
    | [] => none
    | b :: l' =>
      if b.err ≠ espOk then
        some (b.err, [(HalCall.setLevel Pin.trig true, a),
                      (HalCall.delayUs pulse_duration_us, b)], l')
      else match l' with
      | [] => none
      | c :: l'' =>
        some (c.err, [(HalCall.setLevel Pin.trig true, a),
                      (HalCall.delayUs pulse_duration_us, b),
                      (HalCall.setLevel Pin.trig false, c)], l'')

/-- The polling loop of `UsDriver::wait_rising_edge`: read the echo level
(returning a failing read's code at once), then check the timeout, and repeat
while the level is low. -/
def wreLoop (timeout_us start : ℕ) : List Ans → Option (Int × List Ev × List Ans)
  | [] => none
  | a :: l =>
    if a.err ≠ espOk then some (a.err, [(HalCall.getLevel Pin.echo, a)], l)
    else match l with
    | [] => none
    | b :: l' =>
      if timeout_us < sub64 b.now start then
        some (espTimeoutErr, [(HalCall.getLevel Pin.echo, a), (HalCall.getNow, b)], l')
      else if a.lvl then
        some (espOk, [(HalCall.getLevel Pin.echo, a), (HalCall.getNow, b)], l')
      else match wreLoop timeout_us start l' with
      | none => none
      | some (e, lg, rest) =>
        some (e, (HalCall.getLevel Pin.echo, a) :: (HalCall.getNow, b) :: lg, rest)

/-- `UsDriver::wait_rising_edge`: mark the start time, then poll. -/
def wait_rising_edge (timeout_us : ℕ) : List Ans → Option (Int × List Ev × List Ans)
  | [] => none
  | s :: l =>
    match wreLoop timeout_us (wrap64 s.now) l with
    | none => none
    | some (e, lg, rest) => some (e, (HalCall.getNow, s) :: lg, rest)

/-- The pulse-end step of `UsDriver::measure_pulse`: once the echo pin has
fallen, `echo_end = get_now_us()` and the `uint32_t` duration is
`echo_end - echo_start`. -/
def mpFinish (start : ℕ) : List Ans → Option (Int × ℕ × List Ev × List Ans)
  | [] => none
  | c :: l => some (espOk, sub64 c.now start % 2 ^ 32, [(HalCall.getNow, c)], l)

/-- The polling loop of `UsDriver::measure_pulse`: like `wreLoop`, but the
loop continues while the level is high, and on normal exit the pulse-end step
yields the `uint32_t` duration (meaningful only when the returned code is
`ESP_OK`). -/
def mpLoop (timeout_us start : ℕ) : List Ans → Option (Int × ℕ × List Ev × List Ans)
  | [] => none
  | a :: l =>
    if a.err ≠ espOk then some (a.err, 0, [(HalCall.getLevel Pin.echo, a)], l)
    else match l with
    | [] => none
    | b :: l' =>
      if timeout_us < sub64 b.now start then
        some (espTimeoutErr, 0, [(HalCall.getLevel Pin.echo, a), (HalCall.getNow, b)], l')
      else if a.lvl then
        match mpLoop timeout_us start l' with
        | none => none
        | some (e, d, lg, rest) =>
          some (e, d, (HalCall.getLevel Pin.echo, a) :: (HalCall.getNow, b) :: lg, rest)
      else match mpFinish start l' with
      | none => none
      | some (e, d, lg, rest) =>
        some (e, d, (HalCall.getLevel Pin.echo, a) :: (HalCall.getNow, b) :: lg, rest)

/-- `UsDriver::measure_pulse`: mark the pulse start, then poll. -/
def measure_pulse (timeout_us : ℕ) : List Ans → Option (Int × ℕ × List Ev × List Ans)
  | [] => none
  | s :: l =>
    match mpLoop timeout_us (wrap64 s.now) l with
    | none => none
    | some (e, d, lg, rest) => some (e, d, (HalCall.getNow, s) :: lg, rest)

/-- The inter-ping settling delay at the end of `ping_once`: performed only
when `ping_interval_ms` is non-zero; its result code is ignored. -/
def interPingDelay (cm : ℚ) (interval_ms : ℕ) (lg : List Ev) :
    List Ans → Option (Reading × List Ev × List Ans)
  | l =>
    if 0 < interval_ms then
      match l with
      | [] => none
      | d :: r =>
        some (⟨UsResult.OK, cm⟩, lg ++ [(HalCall.delayMs interval_ms, d)], r)
    else some (⟨UsResult.OK, cm⟩, lg, l)

/-- `UsDriver::ping_once`: the full trigger-and-measure cycle of
`us_driver.cpp`, step for step. -/
def ping_once (cfg : UsConfig) : List Ans → Option (Reading × List Ev × List Ans)
  | [] => none
  | a0 :: l0 =>
    -- 1. prepare: ECHO as output, driven low
    if a0.err ≠ espOk then
      some (⟨UsResult.HW_FAULT, 0⟩, [(HalCall.setDirection Pin.echo GpioMode.output, a0)], l0)
    else match l0 with
    | [] => none
    | a1 :: l1 =>
      if a1.err ≠ espOk then
        some (⟨UsResult.HW_FAULT, 0⟩,
          [(HalCall.setDirection Pin.echo GpioMode.output, a0),
           (HalCall.setLevel Pin.echo false, a1)], l1)
      else match l1 with
      | [] => none
      | a2 :: l2 =>
        -- 2. ECHO back to input
        if a2.err ≠ espOk then
          some (⟨UsResult.HW_FAULT, 0⟩,
            [(HalCall.setDirection Pin.echo GpioMode.output, a0),
             (HalCall.setLevel Pin.echo false, a1),
             (HalCall.setDirection Pin.echo GpioMode.input, a2)], l2)
        else
          let pre : List Ev :=
            [(HalCall.setDirection Pin.echo GpioMode.output, a0),
             (HalCall.setLevel Pin.echo false, a1),
             (HalCall.setDirection Pin.echo GpioMode.input, a2)]
          -- 3. pre-trigger stuck check
          match is_echo_stuck l2 with
          | none => none
          | some (stuck, lgS, l3) =>
            if stuck then some (⟨UsResult.ECHO_STUCK, 0⟩, pre ++ lgS, l3)
            else
              -- 4. trigger pulse
              match trigger cfg.ping_duration_us l3 with
              | none => none
              | some (retT, lgT, l4) =>
                if retT ≠ espOk then
                  some (⟨UsResult.HW_FAULT, 0⟩, pre ++ lgS ++ lgT, l4)
                else
                  -- 5. wait for the rising edge
                  match wait_rising_edge cfg.timeout_us l4 with
                  | none => none
                  | some (retW, lgW, l5) =>
                    if retW = espTimeoutErr then
                      some (⟨UsResult.TIMEOUT, 0⟩, pre ++ lgS ++ lgT ++ lgW, l5)
                    else if retW ≠ espOk then
                      some (⟨UsResult.HW_FAULT, 0⟩, pre ++ lgS ++ lgT ++ lgW, l5)
                    else
                      -- 6. measure the high pulse
                      match measure_pulse cfg.timeout_us l5 with
                      | none => none
                      | some (retM, duration_us, lgM, l6) =>
                        if retM = espTimeoutErr then
                          some (⟨UsResult.TIMEOUT, 0⟩, pre ++ lgS ++ lgT ++ lgW ++ lgM, l6)
                        else if retM ≠ espOk then
                          some (⟨UsResult.HW_FAULT, 0⟩, pre ++ lgS ++ lgT ++ lgW ++ lgM, l6)
                        else
                          -- 7. convert to distance and range-check
                          let cm : ℚ := ((duration_us : ℚ) * soundSpeed) / 2
                          if cm < cfg.min_distance_cm ∨ cfg.max_distance_cm < cm then
                            some (⟨UsResult.OUT_OF_RANGE, 0⟩,
                              pre ++ lgS ++ lgT ++ lgW ++ lgM, l6)
                          else
                            interPingDelay cm cfg.ping_interval_ms
                              (pre ++ lgS ++ lgT ++ lgW ++ lgM) l6

/-! ## Measurement orchestrator (`us_sensor.cpp`, both historical variants)

`UsSensor::read_distance` interacts with the driver only through the stream of
per-ping `Reading`s it returns, so the orchestrator is modelled over an
arbitrary outcome stream `drv : ℕ → Reading` (the `i`-th ping's outcome).
Besides the result `Reading`, the model reports how many pings were performed
and whether the processor was invoked. -/

/-- A hardware fault outcome (`ECHO_STUCK` or `HW_FAULT`), the condition of
the abort test in both `read_distance` loops. -/
def isHwFault (r : UsResult) : Bool :=
  decide (r = UsResult.ECHO_STUCK) || decide (r = UsResult.HW_FAULT)

/-- `MAX_PINGS = 15` and the silent clamp of `ping_count` into `[1, 15]`
performed at the top of both `read_distance` variants. -/
def clampPings (ping_count : ℕ) : ℕ :=
  if ping_count = 0 ∨ 15 < ping_count then (if ping_count = 0 then 1 else 15)
  else ping_count

/-- The ping loop of the `Reading`-array variant of `read_distance`
(`us_sensor.cpp`, current): `i` pings already done with outcomes `acc`,
`rem` pings remaining; on a hardware fault return that ping's `Reading`
without invoking the processor, otherwise process the full batch. -/
def rdLoopR (drv : ℕ → Reading) (cfg : UsConfig) :
    ℕ → ℕ → List Reading → Reading × ℕ × Bool
  | i, 0, acc => (process acc cfg, i, true)
  | i, rem + 1, acc =>
    let r := drv i
    if isHwFault r.result then (r, i + 1, false)
    else rdLoopR drv cfg (i + 1) rem (acc ++ [r])

/-- `UsSensor::read_distance` (the `Reading`-array variant): clamp, loop,
process.  Returns `(final Reading, pings performed, processor invoked)`. -/
def read_distance (drv : ℕ → Reading) (cfg : UsConfig) (ping_count : ℕ) :
    Reading × ℕ × Bool :=
  rdLoopR drv cfg 0 (clampPings ping_count) []

/-- The ping loop of the float-array variant of `read_distance` (historical):
collect valid distances, count `TIMEOUT`/`OUT_OF_RANGE` pings, abort on
hardware faults; at the end run the float-encoding processor on
`(samples, n)` and apply the Stage-2 refinement. -/
def rdLoopF (drv : ℕ → Reading) (cfg : UsConfig) (n : ℕ) :
    ℕ → ℕ → List ℚ → ℕ → ℕ → Reading × ℕ × Bool
  | i, 0, samples, timeouts, out_of_range =>
    (refine_reading (process_floats samples n cfg) timeouts out_of_range, i, true)
  | i, rem + 1, samples, timeouts, out_of_range =>
    let r := drv i
    if isHwFault r.result then (r, i + 1, false)
    else if is_success r.result then
      rdLoopF drv cfg n (i + 1) rem (samples ++ [r.cm]) timeouts out_of_range
    else if r.result = UsResult.TIMEOUT then
      rdLoopF drv cfg n (i + 1) rem samples (timeouts + 1) out_of_range
    else if r.result = UsResult.OUT_OF_RANGE then
      rdLoopF drv cfg n (i + 1) rem samples timeouts (out_of_range + 1)
    else rdLoopF drv cfg n (i + 1) rem samples timeouts out_of_range

/-- The float-array variant of `UsSensor::read_distance` (historical). -/
def read_distance_floats (drv : ℕ → Reading) (cfg : UsConfig) (ping_count : ℕ) :
    Reading × ℕ × Bool :=
  rdLoopF drv cfg (clampPings ping_count) 0 (clampPings ping_count) [] 0 0

/-! ## Concrete environments, outcome streams and batches used by the witnesses and counterexamples -/

/-- A one-answer environment whose single (failing) answer makes the very
first HAL call of `ping_once` fail. -/
def ansFailFirst : List Ans := [{ err := espFail }]

/-- An outcome stream for the C1 witness: ping 0 is a `TIMEOUT`, every ping
from index 1 on is a `HW_FAULT`. -/
def drvC1 : ℕ → Reading := fun j => if j = 0 then ⟨UsResult.TIMEOUT, 0⟩ else ⟨UsResult.HW_FAULT, 0⟩

/-- The batch for the C2 witness: 2 valid pings, 5 timeouts, 3 out-of-range
out of 10 (ratio 0.2, timeouts dominate). -/
def batchC2 : List Reading :=
  [⟨UsResult.OK, 50⟩, ⟨UsResult.WEAK_SIGNAL, 51⟩,
   ⟨UsResult.TIMEOUT, 0⟩, ⟨UsResult.TIMEOUT, 0⟩, ⟨UsResult.TIMEOUT, 0⟩,
   ⟨UsResult.TIMEOUT, 0⟩, ⟨UsResult.TIMEOUT, 0⟩,
   ⟨UsResult.OUT_OF_RANGE, 0⟩, ⟨UsResult.OUT_OF_RANGE, 0⟩, ⟨UsResult.OUT_OF_RANGE, 0⟩]

/-- A 10-ping batch with exactly 4 valid samples whose spread is far beyond
any reasonable deviation limit. -/
def batchC6 : List Reading :=
  [⟨UsResult.OK, 10⟩, ⟨UsResult.OK, 100⟩, ⟨UsResult.OK, 200⟩, ⟨UsResult.OK, 300⟩,
   ⟨UsResult.TIMEOUT, 0⟩, ⟨UsResult.TIMEOUT, 0⟩, ⟨UsResult.TIMEOUT, 0⟩,
   ⟨UsResult.TIMEOUT, 0⟩, ⟨UsResult.TIMEOUT, 0⟩, ⟨UsResult.TIMEOUT, 0⟩]

/-- A 10-ping batch with exactly 4 identical valid samples (zero variance). -/
def batchC6W : List Reading :=
  [⟨UsResult.OK, 50⟩, ⟨UsResult.OK, 50⟩, ⟨UsResult.OK, 50⟩, ⟨UsResult.OK, 50⟩,
   ⟨UsResult.TIMEOUT, 0⟩, ⟨UsResult.TIMEOUT, 0⟩, ⟨UsResult.TIMEOUT, 0⟩,
   ⟨UsResult.TIMEOUT, 0⟩, ⟨UsResult.TIMEOUT, 0⟩, ⟨UsResult.TIMEOUT, 0⟩]

/-- Whether a call trace contains the inter-ping `delay_ms(ms)` call. -/
def hasInterPingDelay (lg : List Ev) (ms : ℕ) : Bool :=
  lg.any (fun p => decide (p.1 = HalCall.delayMs ms))

/-- A HAL environment driving one full cycle to an `OUT_OF_RANGE` outcome:
the echo pulse lasts 100 µs, i.e. ≈1.7 cm, below the default 10 cm minimum.
-/
def ansC5 : List Ans :=
  [{}, {}, {}, {}, {}, {}, {},
   { now := 1000 }, { lvl := true }, { now := 1001 },
   { now := 1010 }, { lvl := false }, { now := 1011 },
   { now := 1110 }]

/-- The call trace of `ping_once` on `ansC5` (no `delayMs` call occurs). -/
def logC5 : List Ev :=
  [(HalCall.setDirection Pin.echo GpioMode.output, {}),
   (HalCall.setLevel Pin.echo false, {}),
   (HalCall.setDirection Pin.echo GpioMode.input, {}),
   (HalCall.getLevel Pin.echo, {}),
   (HalCall.setLevel Pin.trig true, {}),
   (HalCall.delayUs 20, {}),
   (HalCall.setLevel Pin.trig false, {}),
   (HalCall.getNow, { now := 1000 }),
   (HalCall.getLevel Pin.echo, { lvl := true }),
   (HalCall.getNow, { now := 1001 }),
   (HalCall.getNow, { now := 1010 }),
   (HalCall.getLevel Pin.echo, { lvl := false }),
   (HalCall.getNow, { now := 1011 }),
   (HalCall.getNow, { now := 1110 })]



/-- `(ping_once cfg l).map (·.1)`: just the `Reading` outcome of a cycle. -/
def resultOf (cfg : UsConfig) (l : List Ans) : Option Reading :=
  (ping_once cfg l).map (fun x => x.1)

/-- A HAL environment for the C4 counterexample: the pre-trigger stuck-check
pin read fails (`err = -1`) and so does the trailing inter-ping delay, while
every other call succeeds and the echo produces a 1000 µs pulse. -/
def ansC4 : List Ans :=
  [{}, {}, {},
   { err := espFail },
   {}, {}, {},
   { now := 1000 },
   { lvl := true }, { now := 1001 },
   { now := 1010 },
   { lvl := false }, { now := 1011 },
   { now := 2010 },
   { err := espFail }]

/-- The call trace of `ping_once` on `ansC4`. -/
def logC4 : List Ev :=
  [(HalCall.setDirection Pin.echo GpioMode.output, {}),
   (HalCall.setLevel Pin.echo false, {}),
   (HalCall.setDirection Pin.echo GpioMode.input, {}),
   (HalCall.getLevel Pin.echo, { err := espFail }),
   (HalCall.setLevel Pin.trig true, {}),
   (HalCall.delayUs 20, {}),
   (HalCall.setLevel Pin.trig false, {}),
   (HalCall.getNow, { now := 1000 }),
   (HalCall.getLevel Pin.echo, { lvl := true }),
   (HalCall.getNow, { now := 1001 }),
   (HalCall.getNow, { now := 1010 }),
   (HalCall.getLevel Pin.echo, { lvl := false }),
   (HalCall.getNow, { now := 1011 }),
   (HalCall.getNow, { now := 2010 }),
   (HalCall.delayMs 70, { err := espFail })]

/-! ## General lemmas about the timing engine -/

set_option maxHeartbeats 1000000 in
/-- Every `Reading` that `ping_once` can return: `OK` carries the computed
distance, every other tag carries distance `0`. -/
theorem ping_once_cases {cfg : UsConfig} {l : List Ans} {r : Reading}
    {lg : List Ev} {rest : List Ans}
    (h : ping_once cfg l = some (r, lg, rest)) :
    r.result = UsResult.OK ∨ r = ⟨UsResult.TIMEOUT, 0⟩ ∨ r = ⟨UsResult.OUT_OF_RANGE, 0⟩ ∨
      r = ⟨UsResult.ECHO_STUCK, 0⟩ ∨ r = ⟨UsResult.HW_FAULT, 0⟩ := by
  rw [ping_once.eq_def] at h
  repeat' split at h
  all_goals try (simp only [interPingDelay] at h; repeat' split at h)
  all_goals first
    | exact Option.noConfusion h
    | (simp only [Option.some.injEq, Prod.mk.injEq] at h
       obtain ⟨h1, -, -⟩ := h
       subst h1
       simp)

/-- `ping_once` on `ansFailFirst` returns `HW_FAULT` after one call. -/
theorem ping_once_ansFailFirst :
    ping_once {} ansFailFirst =
      some (⟨UsResult.HW_FAULT, 0⟩,
        [(HalCall.setDirection Pin.echo GpioMode.output, { err := espFail })], []) := by
  norm_num [ping_once, ansFailFirst, espOk, espFail]


/-- No sub-phase of the cycle ever performs a `delayMs` call; only the final
inter-ping delay does.  First, a cons step for the trace predicate. -/
theorem hasDelay_cons {c : HalCall} {a : Ans} {lg : List Ev} {ms : ℕ}
    (hc : ¬ c = HalCall.delayMs ms) (h : hasInterPingDelay lg ms = false) :
    hasInterPingDelay ((c, a) :: lg) ms = false := by
  simp only [hasInterPingDelay, List.any_cons] at h ⊢
  simp [hc, h]

/-- The empty trace has no delay. -/
theorem hasDelay_nil {ms : ℕ} : hasInterPingDelay [] ms = false := rfl

/-- Unfolding of the trace predicate over cons. -/
theorem hasDelay_cons_eq {c : HalCall} {a : Ans} {lg : List Ev} {ms : ℕ} :
    hasInterPingDelay ((c, a) :: lg) ms =
      (decide (c = HalCall.delayMs ms) || hasInterPingDelay lg ms) := by
  simp [hasInterPingDelay]

/-- Unfolding of the trace predicate over append. -/
theorem hasDelay_append {lg1 lg2 : List Ev} {ms : ℕ} :
    hasInterPingDelay (lg1 ++ lg2) ms =
      (hasInterPingDelay lg1 ms || hasInterPingDelay lg2 ms) := by
  simp [hasInterPingDelay]

/-- The stuck check performs no delay. -/
theorem hasDelay_is_echo_stuck {l : List Ans} {x : Bool} {lg : List Ev} {rest : List Ans}
    (h : is_echo_stuck l = some (x, lg, rest)) (ms : ℕ) : hasInterPingDelay lg ms = false := by
  rcases l with _ | ⟨a, l⟩
  · exact Option.noConfusion h
  · simp only [is_echo_stuck, Option.some.injEq, Prod.mk.injEq] at h
    obtain ⟨-, h2, -⟩ := h
    subst h2
    simp [hasInterPingDelay]

/-- The trigger pulse performs no `delayMs` (its hold is `delayUs`). -/
theorem hasDelay_trigger {d : ℕ} {l : List Ans} {e : Int} {lg : List Ev} {rest : List Ans}
    (h : trigger d l = some (e, lg, rest)) (ms : ℕ) : hasInterPingDelay lg ms = false := by
  rw [trigger.eq_def] at h
  repeat' split at h
  all_goals first
    | exact Option.noConfusion h
    | (simp only [Option.some.injEq, Prod.mk.injEq] at h
       obtain ⟨-, h2, -⟩ := h
       subst h2
       simp [hasInterPingDelay])

/-- The rising-edge polling loop performs no delay. -/
theorem hasDelay_wreLoop (t s : ℕ) (l : List Ans) :
    ∀ (e : Int) (lg : List Ev) (rest : List Ans),
      wreLoop t s l = some (e, lg, rest) → ∀ ms : ℕ, hasInterPingDelay lg ms = false := by
  induction l using wreLoop.induct t s with
  | case1 =>
    intro e lg rest h
    exact Option.noConfusion h
  | case2 a l ha =>
    intro e lg rest h ms
    rw [wreLoop.eq_def] at h
    simp only [if_pos ha, Option.some.injEq, Prod.mk.injEq] at h
    obtain ⟨-, h2, -⟩ := h
    subst h2
    simp [hasInterPingDelay]
  | case3 a ha =>
    intro e lg rest h
    rw [wreLoop.eq_def] at h
    simp only [if_neg ha] at h
    exact Option.noConfusion h
  | case4 a ha b l hb =>
    intro e lg rest h ms
    rw [wreLoop.eq_def] at h
    simp only [if_neg ha, if_pos hb, Option.some.injEq, Prod.mk.injEq] at h
    obtain ⟨-, h2, -⟩ := h
    subst h2
    simp [hasInterPingDelay]
  | case5 a ha b l hb hl =>
    intro e lg rest h ms
    rw [wreLoop.eq_def] at h
    simp only [if_neg ha, if_neg hb, if_pos hl, Option.some.injEq, Prod.mk.injEq] at h
    obtain ⟨-, h2, -⟩ := h
    subst h2
    simp [hasInterPingDelay]
  | case6 a ha b l hb hl hnone ih =>
    intro e lg rest h
    rw [wreLoop.eq_def] at h
    simp only [if_neg ha, if_neg hb, if_neg hl, hnone] at h
    exact Option.noConfusion h
  | case7 a ha b l hb hl e' lg' rest' hsome ih =>
    intro e lg rest h ms
    rw [wreLoop.eq_def] at h
    simp only [if_neg ha, if_neg hb, if_neg hl, hsome, Option.some.injEq, Prod.mk.injEq] at h
    obtain ⟨-, h2, -⟩ := h
    subst h2
    exact hasDelay_cons (by simp) (hasDelay_cons (by simp) (ih e' lg' rest' hsome ms))

/-- The pulse-end step performs no delay. -/
theorem hasDelay_mpFinish {s : ℕ} {l : List Ans} {e : Int} {d : ℕ} {lg : List Ev}
    {rest : List Ans} (h : mpFinish s l = some (e, d, lg, rest)) (ms : ℕ) :
    hasInterPingDelay lg ms = false := by
  rcases l with _ | ⟨c, l⟩
  · exact Option.noConfusion h
  · simp only [mpFinish, Option.some.injEq, Prod.mk.injEq] at h
    obtain ⟨-, -, h2, -⟩ := h
    subst h2
    simp [hasInterPingDelay]

/-- The pulse-measurement polling loop performs no delay. -/
theorem hasDelay_mpLoop (t s : ℕ) (l : List Ans) :
    ∀ (e : Int) (d : ℕ) (lg : List Ev) (rest : List Ans),
      mpLoop t s l = some (e, d, lg, rest) → ∀ ms : ℕ, hasInterPingDelay lg ms = false := by
  induction l using mpLoop.induct t s with
  | case1 =>
    intro e d lg rest h
    exact Option.noConfusion h
  | case2 a l ha =>
    intro e d lg rest h ms
    rw [mpLoop.eq_def] at h
    simp only [if_pos ha, Option.some.injEq, Prod.mk.injEq] at h
    obtain ⟨-, -, h2, -⟩ := h
    subst h2
    simp [hasInterPingDelay]
  | case3 a ha =>
    intro e d lg rest h
    rw [mpLoop.eq_def] at h
    simp only [if_neg ha] at h
    exact Option.noConfusion h
  | case4 a ha b l hb =>
    intro e d lg rest h ms
    rw [mpLoop.eq_def] at h
    simp only [if_neg ha, if_pos hb, Option.some.injEq, Prod.mk.injEq] at h
    obtain ⟨-, -, h2, -⟩ := h
    subst h2
    simp [hasInterPingDelay]
  | case5 a ha b l hb hl hnone ih =>
    intro e d lg rest h
    rw [mpLoop.eq_def] at h
    simp only [if_neg ha, if_neg hb, if_pos hl, hnone] at h
    exact Option.noConfusion h
  | case6 a ha b l hb hl e' d' lg' rest' hsome ih =>
    intro e d lg rest h ms
    rw [mpLoop.eq_def] at h
    simp only [if_neg ha, if_neg hb, if_pos hl, hsome, Option.some.injEq, Prod.mk.injEq] at h
    obtain ⟨-, -, h2, -⟩ := h
    subst h2
    exact hasDelay_cons (by simp) (hasDelay_cons (by simp) (ih e' d' lg' rest' hsome ms))
  | case7 a ha b l hb hl hnone =>
    intro e d lg rest h
    rw [mpLoop.eq_def] at h
    simp only [if_neg ha, if_neg hb, if_neg hl, hnone] at h
    exact Option.noConfusion h
  | case8 a ha b l hb hl e' d' lg' rest' hsome =>
    intro e d lg rest h ms
    rw [mpLoop.eq_def] at h
    simp only [if_neg ha, if_neg hb, if_neg hl, hsome, Option.some.injEq, Prod.mk.injEq] at h
    obtain ⟨-, -, h2, -⟩ := h
    subst h2
    exact hasDelay_cons (by simp) (hasDelay_cons (by simp) (hasDelay_mpFinish hsome ms))

/-- `wait_rising_edge` performs no delay. -/
theorem hasDelay_wait_rising_edge {t : ℕ} {l : List Ans} {e : Int} {lg : List Ev}
    {rest : List Ans} (h : wait_rising_edge t l = some (e, lg, rest)) (ms : ℕ) :
    hasInterPingDelay lg ms = false := by
  rcases l with _ | ⟨s, l⟩
  · exact Option.noConfusion h
  · simp only [wait_rising_edge] at h
    rcases hw : wreLoop t (wrap64 s.now) l with _ | ⟨⟨e', lg', rest'⟩⟩
    · rw [hw] at h; exact Option.noConfusion h
    · rw [hw] at h
      simp only [Option.some.injEq, Prod.mk.injEq] at h
      obtain ⟨-, h2, -⟩ := h
      subst h2
      exact hasDelay_cons (by simp) (hasDelay_wreLoop t (wrap64 s.now) l e' lg' rest' hw ms)

/-- `measure_pulse` performs no delay. -/
theorem hasDelay_measure_pulse {t : ℕ} {l : List Ans} {e : Int} {d : ℕ} {lg : List Ev}
    {rest : List Ans} (h : measure_pulse t l = some (e, d, lg, rest)) (ms : ℕ) :
    hasInterPingDelay lg ms = false := by
  rcases l with _ | ⟨s, l⟩
  · exact Option.noConfusion h
  · simp only [measure_pulse] at h
    rcases hw : mpLoop t (wrap64 s.now) l with _ | ⟨⟨e', d', lg', rest'⟩⟩
    · rw [hw] at h; exact Option.noConfusion h
    · rw [hw] at h
      simp only [Option.some.injEq, Prod.mk.injEq] at h
      obtain ⟨-, -, h2, -⟩ := h
      subst h2
      exact hasDelay_cons (by simp) (hasDelay_mpLoop t (wrap64 s.now) l e' d' lg' rest' hw ms)

/-- Evaluation of `ping_once` on `ansC5`: an `OUT_OF_RANGE` outcome whose call
trace is `logC5`. -/
theorem ping_once_ansC5 :
    ping_once {} ansC5 = some (⟨UsResult.OUT_OF_RANGE, 0⟩, logC5, []) := by
  norm_num [ping_once, ansC5, logC5, is_echo_stuck, trigger, wait_rising_edge, wreLoop,
    measure_pulse, mpLoop, mpFinish, interPingDelay, sub64, wrap64, espOk, espFail,
    espTimeoutErr, soundSpeed]


/-- Evaluation of `ping_once` on `ansC4`: despite the two failing calls, the
cycle completes with `OK` at 17.15 cm. -/
theorem ping_once_ansC4 :
    ping_once {} ansC4 = some (⟨UsResult.OK, 343 / 20⟩, logC4, []) := by
  norm_num [ping_once, ansC4, logC4, is_echo_stuck, trigger, wait_rising_edge, wreLoop,
    measure_pulse, mpLoop, mpFinish, interPingDelay, sub64, wrap64, espOk, espFail,
    espTimeoutErr, soundSpeed]

/-! ## General lemmas about the orchestrator -/

/-- If the `tgt`-th ping is the first hardware fault, the `Reading`-array loop
returns that ping's `Reading` after `tgt + 1` pings, never reaching the
processor. -/
theorem rdLoopR_abort (drv : ℕ → Reading) (cfg : UsConfig) :
    ∀ (rem i : ℕ) (acc : List Reading) (tgt : ℕ), tgt < i + rem → i ≤ tgt →
      isHwFault (drv tgt).result = true →
      (∀ j, i ≤ j → j < tgt → isHwFault (drv j).result = false) →
      rdLoopR drv cfg i rem acc = (drv tgt, tgt + 1, false)
  | 0, i, acc, tgt, hlt, hge, _, _ => absurd hlt (by omega)
  | rem + 1, i, acc, tgt, hlt, hge, hhw, hbefore => by
    rcases Nat.eq_or_lt_of_le hge with rfl | hlt2
    · simp only [rdLoopR, hhw, if_pos]
    · have hnot : isHwFault (drv i).result = false := hbefore i le_rfl hlt2
      simp only [rdLoopR, hnot, Bool.false_eq_true, if_false]
      exact rdLoopR_abort drv cfg rem (i + 1) (acc ++ [drv i]) tgt (by omega) (by omega) hhw
        (fun j hj1 hj2 => hbefore j (by omega) hj2)

/-- Same abort behaviour for the float-array loop. -/
theorem rdLoopF_abort (drv : ℕ → Reading) (cfg : UsConfig) (n : ℕ) :
    ∀ (rem i : ℕ) (samples : List ℚ) (t oor : ℕ) (tgt : ℕ), tgt < i + rem → i ≤ tgt →
      isHwFault (drv tgt).result = true →
      (∀ j, i ≤ j → j < tgt → isHwFault (drv j).result = false) →
      rdLoopF drv cfg n i rem samples t oor = (drv tgt, tgt + 1, false)
  | 0, i, samples, t, oor, tgt, hlt, hge, _, _ => absurd hlt (by omega)
  | rem + 1, i, samples, t, oor, tgt, hlt, hge, hhw, hbefore => by
    rcases Nat.eq_or_lt_of_le hge with rfl | hlt2
    · simp only [rdLoopF, hhw, if_pos]
    · have hnot : isHwFault (drv i).result = false := hbefore i le_rfl hlt2
      simp only [rdLoopF, hnot, Bool.false_eq_true, if_false]
      have hrec : ∀ s' t' o', rdLoopF drv cfg n (i + 1) rem s' t' o' = (drv tgt, tgt + 1, false) :=
        fun s' t' o' => rdLoopF_abort drv cfg n rem (i + 1) s' t' o' tgt (by omega) (by omega) hhw
          (fun j hj1 hj2 => hbefore j (by omega) hj2)
      split_ifs <;> apply hrec

/-- Stage-2 refinement is the identity on non-`INSUFFICIENT_SAMPLES`
readings. -/
theorem refine_reading_id (x : Reading) (t o : ℕ)
    (hx : x.result ≠ UsResult.INSUFFICIENT_SAMPLES) :
    refine_reading x t o = x := by
  simp only [refine_reading, if_neg hx]

/-- The two aggregator-input encodings agree, batch-wise: the full-`Reading`
processor equals the float-array processor on the extracted valid samples
followed by the orchestrator-side Stage-2 refinement. -/
theorem process_eq_refine (pings : List Reading) (cfg : UsConfig) :
    process pings cfg =
      refine_reading (process_floats (validSamples pings) pings.length cfg)
        (countTimeouts pings) (countOutOfRange pings) := by
  rcases pings with _ | ⟨p, ps⟩
  · simp [process, process_floats, refine_reading, validSamples, countTimeouts, countOutOfRange]
  · have hlen : ¬ (p :: ps).length = 0 := by simp
    have hpos : 0 < (p :: ps).length := by simp
    simp only [process, process_floats, if_neg hlen, if_pos hpos]
    by_cases hr : ((validSamples (p :: ps)).length : ℚ) / (((p :: ps).length : ℕ) : ℚ) < 2 / 5
    · rw [if_pos hr, if_pos hr]
      simp [refine_reading]
    · rw [if_neg hr, if_neg hr]
      rw [refine_reading_id]
      split_ifs <;> simp

/-- The two `read_distance` loops simulate each other: provided the float
loop's accumulators agree with the `Reading` accumulator, both loops return
the same triple. -/
theorem rdLoopFR_eq (drv : ℕ → Reading) (cfg : UsConfig) (n : ℕ) :
    ∀ (rem i : ℕ) (acc : List Reading) (samples : List ℚ) (t oor : ℕ),
      samples = validSamples acc → t = countTimeouts acc → oor = countOutOfRange acc →
      i + rem = n → acc.length = i →
      rdLoopF drv cfg n i rem samples t oor = rdLoopR drv cfg i rem acc
  | 0, i, acc, samples, t, oor, hs, ht, ho, hin, hacc => by
    subst hs ht ho
    simp only [rdLoopF, rdLoopR]
    have hn : n = acc.length := by omega
    subst hn
    rw [← process_eq_refine]
  | rem + 1, i, acc, samples, t, oor, hs, ht, ho, hin, hacc => by
    subst hs ht ho
    simp only [rdLoopF, rdLoopR]
    by_cases hhw : isHwFault (drv i).result = true
    · simp only [hhw, if_true]
    · simp only [hhw, Bool.false_eq_true, if_false]
      have step : ∀ acc2 : List Reading, acc2 = acc ++ [drv i] →
          rdLoopF drv cfg n (i + 1) rem (validSamples acc2) (countTimeouts acc2)
              (countOutOfRange acc2) = rdLoopR drv cfg (i + 1) rem acc2 :=
        fun acc2 h2 => rdLoopFR_eq drv cfg n rem (i + 1) acc2 _ _ _ rfl rfl rfl
          (by omega) (by simp [h2, hacc])
      rcases hres : (drv i).result with _ | _ | _ | _ | _ | _ | _ | _
      · rw [if_pos (by simp [is_success])]
        rw [show validSamples acc ++ [(drv i).cm] = validSamples (acc ++ [drv i]) by
              simp [validSamples, List.filter_append, is_success, hres],
            show countTimeouts acc = countTimeouts (acc ++ [drv i]) by
              simp [countTimeouts, List.countP_append, hres],
            show countOutOfRange acc = countOutOfRange (acc ++ [drv i]) by
              simp [countOutOfRange, List.countP_append, hres]]
        exact step _ rfl
      · rw [if_pos (by simp [is_success])]
        rw [show validSamples acc ++ [(drv i).cm] = validSamples (acc ++ [drv i]) by
              simp [validSamples, List.filter_append, is_success, hres],
            show countTimeouts acc = countTimeouts (acc ++ [drv i]) by
              simp [countTimeouts, List.countP_append, hres],
            show countOutOfRange acc = countOutOfRange (acc ++ [drv i]) by
              simp [countOutOfRange, List.countP_append, hres]]
        exact step _ rfl
      · rw [if_neg (by simp [is_success]), if_pos rfl]
        rw [show validSamples acc = validSamples (acc ++ [drv i]) by
              simp [validSamples, List.filter_append, is_success, hres],
            show countTimeouts acc + 1 = countTimeouts (acc ++ [drv i]) by
              simp [countTimeouts, List.countP_append, hres],
            show countOutOfRange acc = countOutOfRange (acc ++ [drv i]) by
              simp [countOutOfRange, List.countP_append, hres]]
        exact step _ rfl
      · rw [if_neg (by simp [is_success]), if_neg (by simp), if_pos rfl]
        rw [show validSamples acc = validSamples (acc ++ [drv i]) by
              simp [validSamples, List.filter_append, is_success, hres],
            show countTimeouts acc = countTimeouts (acc ++ [drv i]) by
              simp [countTimeouts, List.countP_append, hres],
            show countOutOfRange acc + 1 = countOutOfRange (acc ++ [drv i]) by
              simp [countOutOfRange, List.countP_append, hres]]
        exact step _ rfl
      · rw [if_neg (by simp [is_success]), if_neg (by simp), if_neg (by simp)]
        rw [show validSamples acc = validSamples (acc ++ [drv i]) by
              simp [validSamples, List.filter_append, is_success, hres],
            show countTimeouts acc = countTimeouts (acc ++ [drv i]) by
              simp [countTimeouts, List.countP_append, hres],
            show countOutOfRange acc = countOutOfRange (acc ++ [drv i]) by
              simp [countOutOfRange, List.countP_append, hres]]
        exact step _ rfl
      · rw [if_neg (by simp [is_success]), if_neg (by simp), if_neg (by simp)]
        rw [show validSamples acc = validSamples (acc ++ [drv i]) by
              simp [validSamples, List.filter_append, is_success, hres],
            show countTimeouts acc = countTimeouts (acc ++ [drv i]) by
              simp [countTimeouts, List.countP_append, hres],
            show countOutOfRange acc = countOutOfRange (acc ++ [drv i]) by
              simp [countOutOfRange, List.countP_append, hres]]
        exact step _ rfl
      · simp [isHwFault, hres] at hhw
      · simp [isHwFault, hres] at hhw

/-! ## Lemmas for the dominant-cluster equivalence (C7) -/

/-- The inner cluster loop computes the sum and length of the `takeWhile`
run. -/
theorem clusterRun_eq_takeWhile (x : ℚ) : ∀ t : List ℚ,
    clusterRun x t = ((t.takeWhile (fun y => decide (|y - x| ≤ 5))).sum,
      (t.takeWhile (fun y => decide (|y - x| ≤ 5))).length)
  | [] => rfl
  | y :: ys => by
    by_cases h : |y - x| ≤ 5
    · simp [clusterRun, h, List.takeWhile_cons, clusterRun_eq_takeWhile x ys]
    · simp [clusterRun, h, List.takeWhile_cons]

theorem dcPairs_eq_runs : ∀ w : List ℚ,
    dcPairs w = (clusterRunsSpec w).map (fun r => (r.sum, r.length))
  | [] => rfl
  | x :: rest => by
    simp only [dcPairs, clusterRunsSpec, List.length_cons, List.range_succ_eq_map,
      List.map_cons, List.map_map]
    congr 1
    · rw [clusterRun_eq_takeWhile]
      simp
    · rw [dcPairs_eq_runs rest]
      simp only [clusterRunsSpec, List.map_map]
      apply List.map_congr_left
      intro i _
      simp [List.drop_succ_cons]

/-- Fold-vs-first-maximum characterisation of the best-cluster selection. -/
theorem dcBest_foldl_char : ∀ (ps : List (ℚ × ℕ)) (b : ℚ × ℕ),
    ps.foldl (fun best p => if 2 ≤ p.2 ∧ best.2 < p.2 then p else best) b =
      if 2 ≤ (firstMax ps).2 ∧ b.2 < (firstMax ps).2 then firstMax ps else b
  | [], b => by simp [firstMax]
  | p :: ps, b => by
    have IH := dcBest_foldl_char ps
    simp only [List.foldl_cons, IH, firstMax]
    split_ifs <;> first | rfl | omega

theorem firstMax_low : ∀ ps : List (ℚ × ℕ),
    (ps.map Prod.snd).foldr max 0 < 2 → firstMax ps = (0, 0)
  | [] => fun _ => rfl
  | p :: ps => fun h => by
    simp only [List.map_cons, List.foldr_cons] at h
    have h1 : p.2 < 2 := by omega
    have h2 : (ps.map Prod.snd).foldr max 0 < 2 := by omega
    simp only [firstMax, firstMax_low ps h2]
    rw [if_neg (by omega)]

theorem firstMax_high : ∀ ps : List (ℚ × ℕ),
    2 ≤ (ps.map Prod.snd).foldr max 0 →
    (firstMax ps).2 = (ps.map Prod.snd).foldr max 0 ∧
    ps.find? (fun p => decide (p.2 = (ps.map Prod.snd).foldr max 0)) = some (firstMax ps)
  | [] => fun h => by simp at h
  | p :: ps => fun h => by
    simp only [List.map_cons, List.foldr_cons] at h ⊢
    by_cases hp : (ps.map Prod.snd).foldr max 0 ≤ p.2
    · have hmax : max p.2 ((ps.map Prod.snd).foldr max 0) = p.2 := by omega
      simp only [hmax] at h ⊢
      have hF : (firstMax ps).2 ≤ p.2 := by
        by_cases h2 : 2 ≤ (ps.map Prod.snd).foldr max 0
        · have := (firstMax_high ps h2).1
          omega
        · rw [firstMax_low ps (by omega)]
          omega
      have hfm : firstMax (p :: ps) = p := by
        simp only [firstMax]
        rw [if_pos (show 2 ≤ p.2 ∧ (firstMax ps).2 ≤ p.2 from ⟨h, hF⟩)]
      rw [hfm]
      exact ⟨rfl, by rw [List.find?_cons_of_pos _ (by simp)]⟩
    · push_neg at hp
      have hmax : max p.2 ((ps.map Prod.snd).foldr max 0) = (ps.map Prod.snd).foldr max 0 := by
        omega
      simp only [hmax] at h ⊢
      obtain ⟨ih1, ih2⟩ := firstMax_high ps h
      have hcond : ¬ (2 ≤ p.2 ∧ (firstMax ps).2 ≤ p.2) := by omega
      simp only [firstMax, if_neg hcond]
      refine ⟨ih1, ?_⟩
      rw [List.find?_cons_of_neg _ (by simp; omega), ih2]

/-- Sorting twice is sorting once; sorting preserves length. -/
theorem sortAsc_idem (v : List ℚ) : sortAsc (sortAsc v) = sortAsc v :=
  List.Sorted.insertionSort_eq (List.sorted_insertionSort _ v)

theorem length_sortAsc (v : List ℚ) : (sortAsc v).length = v.length :=
  List.length_insertionSort _ v

theorem c7_equiv (v : List ℚ) : reduce_dominant_cluster v = dominant_cluster_spec v := by
  have hps : dcPairs (sortAsc v) =
      (clusterRunsSpec (sortAsc v)).map (fun r => (r.sum, r.length)) := dcPairs_eq_runs _
  have hsnd : ((dcPairs (sortAsc v)).map Prod.snd).foldr max 0 =
      maxRunSize (clusterRunsSpec (sortAsc v)) := by
    rw [hps]
    simp only [List.map_map]
    rfl
  have hbest : dcBest (dcPairs (sortAsc v)) =
      if 2 ≤ (firstMax (dcPairs (sortAsc v))).2 ∧
          (0 : ℚ × ℕ).2 < (firstMax (dcPairs (sortAsc v))).2 then
        firstMax (dcPairs (sortAsc v))
      else (0, 0) := dcBest_foldl_char _ _
  by_cases hm : maxRunSize (clusterRunsSpec (sortAsc v)) < 2
  · have hlow : firstMax (dcPairs (sortAsc v)) = (0, 0) := firstMax_low _ (by omega)
    have hb : dcBest (dcPairs (sortAsc v)) = (0, 0) := by
      rw [hbest, hlow]
      simp
    simp only [reduce_dominant_cluster, dominant_cluster_spec, hb, if_pos rfl, if_pos hm]
    simp only [reduce_median, sortAsc_idem, length_sortAsc]
    simp
  · push_neg at hm
    have hge : 2 ≤ ((dcPairs (sortAsc v)).map Prod.snd).foldr max 0 := by omega
    obtain ⟨h1, h2⟩ := firstMax_high _ hge
    have hF2 : (firstMax (dcPairs (sortAsc v))).2 = maxRunSize (clusterRunsSpec (sortAsc v)) := by
      omega
    have hb : dcBest (dcPairs (sortAsc v)) = firstMax (dcPairs (sortAsc v)) := by
      rw [hbest, if_pos ⟨by omega, by simp; omega⟩]
    have h3 : ((clusterRunsSpec (sortAsc v)).map (fun r => (r.sum, r.length))).find?
        (fun p : ℚ × ℕ => decide (p.2 = ((dcPairs (sortAsc v)).map Prod.snd).foldr max 0)) =
        some (firstMax (dcPairs (sortAsc v))) := by
      rw [← hps]
      exact h2
    rw [List.find?_map] at h3
    have hfind : (clusterRunsSpec (sortAsc v)).find?
        (fun r => decide (r.length = maxRunSize (clusterRunsSpec (sortAsc v)))) =
        ((clusterRunsSpec (sortAsc v)).find? ((fun p : ℚ × ℕ =>
          decide (p.2 = ((dcPairs (sortAsc v)).map Prod.snd).foldr max 0)) ∘
            (fun r => (r.sum, r.length)))) := by
      congr 1
      funext r
      simp [hsnd]
    rcases hr : (clusterRunsSpec (sortAsc v)).find? ((fun p : ℚ × ℕ =>
        decide (p.2 = ((dcPairs (sortAsc v)).map Prod.snd).foldr max 0)) ∘
          (fun r => (r.sum, r.length))) with _ | r
    · rw [hr] at h3
      exact Option.noConfusion h3
    · rw [hr] at h3
      simp only [Option.map_some'] at h3
      obtain ⟨hsum, hlen⟩ : r.sum = (firstMax (dcPairs (sortAsc v))).1 ∧
          r.length = (firstMax (dcPairs (sortAsc v))).2 := by
        simpa [Prod.ext_iff] using h3
      simp only [reduce_dominant_cluster, dominant_cluster_spec, hb]
      rw [if_neg (show ¬ (firstMax (dcPairs (sortAsc v))).2 = 0 by omega),
        if_neg (show ¬ maxRunSize (clusterRunsSpec (sortAsc v)) < 2 by omega)]
      rw [hfind, hr]
      simp [hsum, hlen]

/-! ## Claims -/

/-- C1: if the `i`-th ping returns `ECHO_STUCK` or `HW_FAULT` (and no earlier
ping did), `read_distance` returns that ping's `Reading` immediately — with
distance 0, since the timing engine pairs those tags with distance 0 — after
exactly `i + 1` pings and without ever invoking the aggregator.  Proved for
both historical variants of the orchestrator loop. -/
theorem c1_hw_abort :
    (∀ (cfg : UsConfig) (l : List Ans) (r : Reading) (lg : List Ev) (rest : List Ans),
      ping_once cfg l = some (r, lg, rest) →
      (r.result = UsResult.ECHO_STUCK ∨ r.result = UsResult.HW_FAULT) → r.cm = 0) ∧
    (∀ (drv : ℕ → Reading) (cfg : UsConfig) (ping_count i : ℕ),
      i < clampPings ping_count →
      ((drv i).result = UsResult.ECHO_STUCK ∨ (drv i).result = UsResult.HW_FAULT) →
      (∀ j, j < i → ¬((drv j).result = UsResult.ECHO_STUCK ∨ (drv j).result = UsResult.HW_FAULT)) →
      read_distance drv cfg ping_count = (drv i, i + 1, false)) ∧
    (∀ (drv : ℕ → Reading) (cfg : UsConfig) (ping_count i : ℕ),
      i < clampPings ping_count →
      ((drv i).result = UsResult.ECHO_STUCK ∨ (drv i).result = UsResult.HW_FAULT) →
      (∀ j, j < i → ¬((drv j).result = UsResult.ECHO_STUCK ∨ (drv j).result = UsResult.HW_FAULT)) →
      read_distance_floats drv cfg ping_count = (drv i, i + 1, false)) := by
  have hiff : ∀ r : UsResult,
      isHwFault r = true ↔ (r = UsResult.ECHO_STUCK ∨ r = UsResult.HW_FAULT) := by
    intro r; simp [isHwFault]
  refine ⟨?_, ?_, ?_⟩
  · intro cfg l r lg rest h hw
    rcases ping_once_cases h with h1 | h1 | h1 | h1 | h1 <;> subst_eqs <;> simp_all
  · intro drv cfg pc i hi hhw hbefore
    refine rdLoopR_abort drv cfg (clampPings pc) 0 [] i (by omega) (Nat.zero_le _)
      ((hiff _).mpr hhw) (fun j _ hj2 => ?_)
    have hb := hbefore j hj2
    rcases hx : isHwFault (drv j).result with _ | _
    · rfl
    · exact absurd ((hiff _).mp hx) hb
  · intro drv cfg pc i hi hhw hbefore
    refine rdLoopF_abort drv cfg (clampPings pc) (clampPings pc) 0 [] 0 0 i (by omega)
      (Nat.zero_le _) ((hiff _).mpr hhw) (fun j _ hj2 => ?_)
    have hb := hbefore j hj2
    rcases hx : isHwFault (drv j).result with _ | _
    · rfl
    · exact absurd ((hiff _).mp hx) hb

/-- Witness for C1 at ping_count 3: the fault at ping index 1 aborts after 2
pings with the fault `Reading`, whose distance is 0. -/
theorem c1_witness :
    read_distance drvC1 {} 3 = (⟨UsResult.HW_FAULT, 0⟩, 2, false) ∧
    (⟨UsResult.HW_FAULT, 0⟩ : Reading).cm = 0 := by
  constructor
  · have h := c1_hw_abort.2.1 drvC1 {} 3 1 (by norm_num [clampPings]) (by simp [drvC1])
      (fun j hj => by interval_cases j; simp [drvC1])
    simpa [drvC1] using h
  · exact c1_hw_abort.1 {} ansFailFirst _ _ _ ping_once_ansFailFirst (Or.inr rfl)

/-- C2: a batch with a positive ping count whose valid ratio is below 0.4 is
rejected with distance 0 and the refined tag: `OUT_OF_RANGE` when the
out-of-range count is positive and at least the timeout count, else `TIMEOUT`
when the timeout count is positive, else `INSUFFICIENT_SAMPLES`. -/
theorem c2_low_ratio_refinement (pings : List Reading) (cfg : UsConfig)
    (hne : pings ≠ [])
    (hratio : ((validSamples pings).length : ℚ) / (pings.length : ℚ) < 2 / 5) :
    (countTimeouts pings ≤ countOutOfRange pings ∧ 0 < countOutOfRange pings →
      process pings cfg = ⟨UsResult.OUT_OF_RANGE, 0⟩) ∧
    (¬(countTimeouts pings ≤ countOutOfRange pings ∧ 0 < countOutOfRange pings) →
      0 < countTimeouts pings → process pings cfg = ⟨UsResult.TIMEOUT, 0⟩) ∧
    (countOutOfRange pings = 0 → countTimeouts pings = 0 →
      process pings cfg = ⟨UsResult.INSUFFICIENT_SAMPLES, 0⟩) := by
  have hlen : ¬ pings.length = 0 := by simpa using hne
  refine ⟨fun h1 => ?_, fun h1 h2 => ?_, fun h1 h2 => ?_⟩
  · simp only [process, if_neg hlen, if_pos hratio, if_pos h1]
  · simp only [process, if_neg hlen, if_pos hratio, if_neg h1, if_pos h2]
  · simp only [process, if_neg hlen, if_pos hratio]
    rw [if_neg (by omega), if_neg (by omega)]

/-- Witness for C2: on `batchC2` the timeouts dominate, so the rejected batch
refines to `TIMEOUT`. -/
theorem c2_witness : process batchC2 {} = ⟨UsResult.TIMEOUT, 0⟩ := by
  have hs : validSamples batchC2 = [50, 51] := by decide
  have h := c2_low_ratio_refinement batchC2 {} (by decide)
    (by rw [hs]; norm_num [batchC2])
  exact h.2.1 (by decide) (by decide)

/-- C3: the two aggregator-input encodings produce an identical final
`Reading`: the full-`Reading`-array processor equals the float-array processor
on the extracted valid distances plus the attempted count, followed by the
orchestrator-side Stage-2 refinement; consequently the two historical
`read_distance` variants agree on every outcome stream. -/
theorem c3_encoding_equivalence :
    (∀ (pings : List Reading) (cfg : UsConfig), pings.length ≤ 15 →
      process pings cfg =
        refine_reading (process_floats (validSamples pings) pings.length cfg)
          (countTimeouts pings) (countOutOfRange pings)) ∧
    (∀ (drv : ℕ → Reading) (cfg : UsConfig) (ping_count : ℕ),
      read_distance_floats drv cfg ping_count = read_distance drv cfg ping_count) := by
  refine ⟨fun pings cfg _ => process_eq_refine pings cfg, fun drv cfg pc => ?_⟩
  exact rdLoopFR_eq drv cfg (clampPings pc) (clampPings pc) 0 [] [] 0 0 rfl rfl rfl
    (by omega) rfl

/-- Witness for C3 on `batchC2`. -/
theorem c3_witness :
    process batchC2 {} =
      refine_reading (process_floats (validSamples batchC2) batchC2.length {})
        (countTimeouts batchC2) (countOutOfRange batchC2) :=
  c3_encoding_equivalence.1 batchC2 {} (by decide)




/-- C7: the source's dominant-cluster reduction coincides with the
specification's description — sorted ascending, contiguous runs grown from
each start index while values stay within 5 cm of the run's first value, the
first strictly-largest run of at least 2 members wins and is averaged, and
with no qualifying run the reduction falls back to the median — and on the
all-isolated sample set `{10, 100, 200, 300}` it equals the median
reduction. -/
theorem c7_dominant_cluster :
    (∀ v : List ℚ, reduce_dominant_cluster v = dominant_cluster_spec v) ∧
    reduce_dominant_cluster [10, 100, 200, 300] = reduce_median [10, 100, 200, 300] := by
  refine ⟨c7_equiv, ?_⟩
  have h1 : reduce_dominant_cluster [10, 100, 200, 300] = 200 := by
    norm_num [reduce_dominant_cluster, sortAsc, List.insertionSort, List.orderedInsert,
      dcPairs, dcBest, clusterRun, reduce_median, List.getD]
  have h2 : reduce_median [10, 100, 200, 300] = 200 := by
    norm_num [reduce_median, sortAsc, List.insertionSort, List.orderedInsert, List.getD]
  rw [h1, h2]

/-- C4 counterexample: in `ansC4` the pre-trigger stuck-check pin read fails
(4th answer, `err = ESP_FAIL`) and the inter-ping delay fails (15th answer),
yet `ping_once` returns `OK` with 17.15 cm, not `HW_FAULT` with distance 0.
-/
theorem c4_counterexample :
    (ansC4.get? 3).map Ans.err = some espFail ∧
    (ansC4.get? 14).map Ans.err = some espFail ∧
    ping_once {} ansC4 = some (⟨UsResult.OK, 343 / 20⟩, logC4, []) ∧
    (⟨UsResult.OK, (343 : ℚ) / 20⟩ : Reading) ≠ ⟨UsResult.HW_FAULT, 0⟩ := by
  refine ⟨by decide, by decide, ping_once_ansC4, by norm_num⟩

/-- C4 (amended): every failing pin-I/O or time-source call makes `ping_once`
return `HW_FAULT` with distance 0 — the three prepare steps, the three
trigger steps, and a read failing inside either polling loop, whose error
code (when neither `ESP_OK` nor `ESP_ERR_TIMEOUT`) propagates to `HW_FAULT` —
with exactly two exceptions: the pre-trigger echo-stuck pin read, whose
failure is swallowed (the check reports "not stuck" and the cycle continues),
and the inter-ping settling delay, whose answer is ignored (the `OK` reading
is returned regardless). -/
theorem c4_amended :
    (∀ (cfg : UsConfig) (a0 : Ans) (l : List Ans), a0.err ≠ espOk →
      resultOf cfg (a0 :: l) = some ⟨UsResult.HW_FAULT, 0⟩) ∧
    (∀ (cfg : UsConfig) (a0 a1 : Ans) (l : List Ans), a0.err = espOk → a1.err ≠ espOk →
      resultOf cfg (a0 :: a1 :: l) = some ⟨UsResult.HW_FAULT, 0⟩) ∧
    (∀ (cfg : UsConfig) (a0 a1 a2 : Ans) (l : List Ans), a0.err = espOk → a1.err = espOk →
      a2.err ≠ espOk → resultOf cfg (a0 :: a1 :: a2 :: l) = some ⟨UsResult.HW_FAULT, 0⟩) ∧
    (∀ (a3 : Ans) (l : List Ans), a3.err ≠ espOk →
      is_echo_stuck (a3 :: l) = some (false, [(HalCall.getLevel Pin.echo, a3)], l)) ∧
    (∀ (cfg : UsConfig) (a0 a1 a2 a3 a4 : Ans) (l : List Ans),
      a0.err = espOk → a1.err = espOk → a2.err = espOk →
      (if a3.err ≠ espOk then false else a3.lvl) = false → a4.err ≠ espOk →
      resultOf cfg (a0 :: a1 :: a2 :: a3 :: a4 :: l) = some ⟨UsResult.HW_FAULT, 0⟩) ∧
    (∀ (cfg : UsConfig) (a0 a1 a2 a3 a4 a5 : Ans) (l : List Ans),
      a0.err = espOk → a1.err = espOk → a2.err = espOk →
      (if a3.err ≠ espOk then false else a3.lvl) = false → a4.err = espOk → a5.err ≠ espOk →
      resultOf cfg (a0 :: a1 :: a2 :: a3 :: a4 :: a5 :: l) = some ⟨UsResult.HW_FAULT, 0⟩) ∧
    (∀ (cfg : UsConfig) (a0 a1 a2 a3 a4 a5 a6 : Ans) (l : List Ans),
      a0.err = espOk → a1.err = espOk → a2.err = espOk →
      (if a3.err ≠ espOk then false else a3.lvl) = false → a4.err = espOk → a5.err = espOk →
      a6.err ≠ espOk →
      resultOf cfg (a0 :: a1 :: a2 :: a3 :: a4 :: a5 :: a6 :: l) =
        some ⟨UsResult.HW_FAULT, 0⟩) ∧
    (∀ (t s : ℕ) (a : Ans) (l : List Ans), a.err ≠ espOk →
      wreLoop t s (a :: l) = some (a.err, [(HalCall.getLevel Pin.echo, a)], l)) ∧
    (∀ (cfg : UsConfig) (a0 a1 a2 a3 a4 a5 a6 : Ans) (l : List Ans) (e : Int)
        (lg : List Ev) (rest : List Ans),
      a0.err = espOk → a1.err = espOk → a2.err = espOk →
      (if a3.err ≠ espOk then false else a3.lvl) = false → a4.err = espOk → a5.err = espOk →
      a6.err = espOk → wait_rising_edge cfg.timeout_us l = some (e, lg, rest) →
      e ≠ espOk → e ≠ espTimeoutErr →
      resultOf cfg (a0 :: a1 :: a2 :: a3 :: a4 :: a5 :: a6 :: l) =
        some ⟨UsResult.HW_FAULT, 0⟩) ∧
    (∀ (t s : ℕ) (a : Ans) (l : List Ans), a.err ≠ espOk →
      mpLoop t s (a :: l) = some (a.err, 0, [(HalCall.getLevel Pin.echo, a)], l)) ∧
    (∀ (cfg : UsConfig) (a0 a1 a2 a3 a4 a5 a6 : Ans) (l : List Ans) (lgW : List Ev)
        (l5 : List Ans) (e : Int) (d : ℕ) (lgM : List Ev) (rest : List Ans),
      a0.err = espOk → a1.err = espOk → a2.err = espOk →
      (if a3.err ≠ espOk then false else a3.lvl) = false → a4.err = espOk → a5.err = espOk →
      a6.err = espOk → wait_rising_edge cfg.timeout_us l = some (espOk, lgW, l5) →
      measure_pulse cfg.timeout_us l5 = some (e, d, lgM, rest) →
      e ≠ espOk → e ≠ espTimeoutErr →
      resultOf cfg (a0 :: a1 :: a2 :: a3 :: a4 :: a5 :: a6 :: l) =
        some ⟨UsResult.HW_FAULT, 0⟩) ∧
    (∀ (cm : ℚ) (interval : ℕ) (lg : List Ev) (d : Ans) (l : List Ans), 0 < interval →
      interPingDelay cm interval lg (d :: l) =
        some (⟨UsResult.OK, cm⟩, lg ++ [(HalCall.delayMs interval, d)], l)) := by
  refine ⟨?_, ?_, ?_, ?_, ?_, ?_, ?_, ?_, ?_, ?_, ?_, ?_⟩
  · intro cfg a0 l h
    simp [resultOf, ping_once, h]
  · intro cfg a0 a1 l h0 h1
    simp [resultOf, ping_once, h0, h1]
  · intro cfg a0 a1 a2 l h0 h1 h2
    simp [resultOf, ping_once, h0, h1, h2]
  · intro a3 l h
    simp [is_echo_stuck, h]
  · intro cfg a0 a1 a2 a3 a4 l h0 h1 h2 hst h4
    simp [resultOf, ping_once, is_echo_stuck, trigger, h0, h1, h2, hst, h4]
  · intro cfg a0 a1 a2 a3 a4 a5 l h0 h1 h2 hst h4 h5
    simp [resultOf, ping_once, is_echo_stuck, trigger, h0, h1, h2, hst, h4, h5]
  · intro cfg a0 a1 a2 a3 a4 a5 a6 l h0 h1 h2 hst h4 h5 h6
    simp [resultOf, ping_once, is_echo_stuck, trigger, h0, h1, h2, hst, h4, h5, h6]
  · intro t s a l ha
    rw [wreLoop.eq_def]
    simp [ha]
  · intro cfg a0 a1 a2 a3 a4 a5 a6 l e lg rest h0 h1 h2 hst h4 h5 h6 hw he1 he2
    simp [resultOf, ping_once, is_echo_stuck, trigger, h0, h1, h2, hst, h4, h5, h6, hw,
      he1, he2]
  · intro t s a l ha
    rw [mpLoop.eq_def]
    simp [ha]
  · intro cfg a0 a1 a2 a3 a4 a5 a6 l lgW l5 e d lgM rest h0 h1 h2 hst h4 h5 h6 hw hm he1 he2
    have hot : espOk ≠ espTimeoutErr := by decide
    simp [resultOf, ping_once, is_echo_stuck, trigger, h0, h1, h2, hst, h4, h5, h6, hw, hm,
      he1, he2, hot]
  · intro cm interval lg d l hi
    simp [interPingDelay, hi]

/-- Witness for the amended C4: the uniform fault mapping at the first
prepare step, the stuck-check swallow, and the ignored delay, each at a
concrete input. -/
theorem c4_witness :
    resultOf {} ({ err := espFail } :: []) = some ⟨UsResult.HW_FAULT, 0⟩ ∧
    is_echo_stuck ({ err := espFail } :: []) =
      some (false, [(HalCall.getLevel Pin.echo, { err := espFail })], []) ∧
    interPingDelay 50 70 [] ({ err := espFail } :: []) =
      some (⟨UsResult.OK, 50⟩, [(HalCall.delayMs 70, { err := espFail })], []) :=
  ⟨c4_amended.1 {} { err := espFail } [] (by decide),
   c4_amended.2.2.2.1 { err := espFail } [] (by decide),
   c4_amended.2.2.2.2.2.2.2.2.2.2.2 50 70 [] { err := espFail } [] (by decide)⟩

/-- C5 counterexample: a cycle ending in `OUT_OF_RANGE` with the default
(non-zero) ping interval performs no `delay_ms` call — the inter-ping delay
sits after the out-of-range early return, so only `OK` cycles delay. -/
theorem c5_counterexample :
    ({} : UsConfig).ping_interval_ms ≠ 0 ∧
    ping_once {} ansC5 = some (⟨UsResult.OUT_OF_RANGE, 0⟩, logC5, []) ∧
    hasInterPingDelay logC5 ({} : UsConfig).ping_interval_ms = false := by
  refine ⟨by norm_num, ping_once_ansC5, by decide⟩

set_option maxHeartbeats 1000000 in
/-- C5 (amended): `ping_once` performs the blocking `delay_ms
(ping_interval_ms)` call before returning exactly when the cycle's outcome is
`OK` and the configured interval is non-zero; cycles ending in `TIMEOUT`,
`OUT_OF_RANGE`, `ECHO_STUCK` or `HW_FAULT` never reach the delay. -/
theorem c5_amended (cfg : UsConfig) (l : List Ans) (r : Reading) (lg : List Ev)
    (rest : List Ans) (h : ping_once cfg l = some (r, lg, rest)) :
    hasInterPingDelay lg cfg.ping_interval_ms =
      (decide (r.result = UsResult.OK) && decide (0 < cfg.ping_interval_ms)) := by
  rw [ping_once.eq_def] at h
  repeat' split at h
  all_goals try (simp only [interPingDelay] at h; repeat' split at h)
  all_goals first
    | exact Option.noConfusion h
    | (simp only [Option.some.injEq, Prod.mk.injEq] at h
       obtain ⟨h1, h2, -⟩ := h
       subst h1 h2)
  all_goals simp_all [hasDelay_nil, hasDelay_cons_eq, hasDelay_append]
  all_goals repeat' apply And.intro
  all_goals first
    | exact hasDelay_is_echo_stuck (by assumption) _
    | exact hasDelay_trigger (by assumption) _
    | exact hasDelay_wait_rising_edge (by assumption) _
    | exact hasDelay_measure_pulse (by assumption) _

/-- Witness for the amended C5 on concrete data: the `OUT_OF_RANGE` cycle
`ansC5` has no delay in its trace, as the amended rule predicts. -/
theorem c5_witness :
    hasInterPingDelay logC5 ({} : UsConfig).ping_interval_ms =
      (decide ((⟨UsResult.OUT_OF_RANGE, (0 : ℚ)⟩ : Reading).result = UsResult.OK) &&
        decide (0 < ({} : UsConfig).ping_interval_ms)) :=
  c5_amended {} ansC5 ⟨UsResult.OUT_OF_RANGE, 0⟩ logC5 [] ping_once_ansC5

/-- C6 counterexample: a batch of 10 pings with exactly 4 valid samples whose
aggregation result is `HIGH_VARIANCE`, not `WEAK_SIGNAL` — a ratio of exactly
0.4 passes the Stage-1 gate, but the variance gate can still re-route the
batch away from `WEAK_SIGNAL`. -/
theorem c6_counterexample :
    batchC6.length = 10 ∧ (validSamples batchC6).length = 4 ∧
    process batchC6 {} = ⟨UsResult.HIGH_VARIANCE, 0⟩ ∧
    UsResult.HIGH_VARIANCE ≠ UsResult.WEAK_SIGNAL := by
  have hs : validSamples batchC6 = [10, 100, 200, 300] := by decide
  have h1 : ¬ (batchC6.length = 0) := by decide
  have h2 : ¬ (((validSamples batchC6).length : ℚ) / (batchC6.length : ℚ) < 2 / 5) := by
    rw [hs]; norm_num [batchC6]
  have h3 : std_dev_exceeds (validSamples batchC6) ({} : UsConfig).max_dev_cm = true := by
    rw [hs]; norm_num [std_dev_exceeds, varianceOf, meanQ]
  refine ⟨rfl, by rw [hs]; rfl, ?_, by simp⟩
  simp only [process, if_neg h1, if_neg h2, h3, if_true]

/-- C6 (amended): for every batch of 10 pings of which exactly 4 are valid,
the aggregation result is never `INSUFFICIENT_SAMPLES` (the ratio 0.4 passes
the Stage-1 gate); it is `WEAK_SIGNAL` when the valid samples also pass the
Stage-3 variance gate, and otherwise that gate yields `HIGH_VARIANCE`. -/
theorem c6_amended (pings : List Reading) (cfg : UsConfig)
    (hlen : pings.length = 10) (hvalid : (validSamples pings).length = 4) :
    (process pings cfg).result ≠ UsResult.INSUFFICIENT_SAMPLES ∧
    (std_dev_exceeds (validSamples pings) cfg.max_dev_cm = false →
      (process pings cfg).result = UsResult.WEAK_SIGNAL) ∧
    (std_dev_exceeds (validSamples pings) cfg.max_dev_cm = true →
      (process pings cfg).result = UsResult.HIGH_VARIANCE) := by
  have hr1 : ¬ (((validSamples pings).length : ℚ) / (pings.length : ℚ) < 2 / 5) := by
    rw [hvalid, hlen]; norm_num
  have hr2 : ¬ ((7 : ℚ) / 10 ≤ ((validSamples pings).length : ℚ) / (pings.length : ℚ)) := by
    rw [hvalid, hlen]; norm_num
  refine ⟨?_, ?_, ?_⟩
  · simp only [process, if_neg (by omega : ¬ pings.length = 0), if_neg hr1, if_neg hr2]
    split_ifs <;> simp
  · intro hdev
    simp only [process, if_neg (by omega : ¬ pings.length = 0), if_neg hr1, if_neg hr2, hdev]
    simp
  · intro hdev
    simp only [process, if_neg (by omega : ¬ pings.length = 0), if_neg hr1, hdev, if_true]

/-- Witness for the amended C6: 4 clustered valid samples of 10 yield
`WEAK_SIGNAL`, not `INSUFFICIENT_SAMPLES`; 4 widely spread valid samples of
10 yield `HIGH_VARIANCE`. -/
theorem c6_witness :
    ((process batchC6W {}).result ≠ UsResult.INSUFFICIENT_SAMPLES ∧
      (process batchC6W {}).result = UsResult.WEAK_SIGNAL) ∧
    (process batchC6 {}).result = UsResult.HIGH_VARIANCE := by
  have hs : validSamples batchC6W = [50, 50, 50, 50] := by decide
  have h := c6_amended batchC6W {} rfl (by rw [hs]; rfl)
  have hs2 : validSamples batchC6 = [10, 100, 200, 300] := by decide
  have h2 := c6_amended batchC6 {} rfl (by rw [hs2]; rfl)
  refine ⟨⟨h.1, h.2.1 ?_⟩, h2.2.2 ?_⟩
  · rw [hs]; norm_num [std_dev_exceeds, varianceOf, meanQ]
  · rw [hs2]; norm_num [std_dev_exceeds, varianceOf, meanQ]

/-- C8: the silent clamp — `read_distance 0` behaves exactly like
`read_distance 1`, and `read_distance n` for `n > 15` (up to the `uint8`
maximum 255) behaves exactly like `read_distance 15`, for every configuration
and every outcome stream, in both historical variants; the result type is an
ordinary `Reading`, so no error is surfaced. -/
theorem c8_clamp_equivalence (drv : ℕ → Reading) (cfg : UsConfig) :
    (read_distance drv cfg 0 = read_distance drv cfg 1 ∧
      read_distance_floats drv cfg 0 = read_distance_floats drv cfg 1) ∧
    (∀ n : ℕ, 15 < n → n ≤ 255 →
      read_distance drv cfg n = read_distance drv cfg 15 ∧
      read_distance_floats drv cfg n = read_distance_floats drv cfg 15) := by
  have h01 : clampPings 0 = clampPings 1 := by simp [clampPings]
  refine ⟨?_, ?_⟩
  · rw [read_distance, read_distance, h01, read_distance_floats, read_distance_floats, h01]
    exact ⟨rfl, rfl⟩
  · intro n hn _
    have hcl : clampPings n = clampPings 15 := by
      simp only [clampPings]
      rw [if_pos (Or.inr hn), if_neg (by omega), if_neg (by omega)]
    rw [read_distance, read_distance, hcl, read_distance_floats, read_distance_floats, hcl]
    exact ⟨rfl, rfl⟩

/-- Witness for C8 at `n = 20` over an all-timeout stream. -/
theorem c8_witness :
    read_distance (fun _ => ⟨UsResult.TIMEOUT, 0⟩) {} 20 =
      read_distance (fun _ => ⟨UsResult.TIMEOUT, 0⟩) {} 15 :=
  ((c8_clamp_equivalence (fun _ => ⟨UsResult.TIMEOUT, 0⟩) {}).2 20 (by decide) (by decide)).1

/-- C9: a non-success `Reading` produced by the timing engine or the
aggregator carries distance 0; `Reading` equality ignores the distance for
non-success tags (same failed tag compares equal whatever the distances) and
compares success readings equal exactly when the tags match and the distances
differ by less than the 0.001 tolerance. -/
theorem c9_reading_semantics :
    (∀ (cfg : UsConfig) (l : List Ans) (r : Reading) (lg : List Ev) (rest : List Ans),
      ping_once cfg l = some (r, lg, rest) → is_success r.result = false → r.cm = 0) ∧
    (∀ (pings : List Reading) (cfg : UsConfig),
      is_success (process pings cfg).result = false → (process pings cfg).cm = 0) ∧
    (∀ a b : Reading, a.result = b.result → is_success a.result = false → req a b = true) ∧
    (∀ a b : Reading, is_success a.result = true →
      (req a b = true ↔ a.result = b.result ∧ |a.cm - b.cm| < 1 / 1000)) := by
  refine ⟨?_, ?_, ?_, ?_⟩
  · intro cfg l r lg rest h hs
    rcases ping_once_cases h with h1 | h1 | h1 | h1 | h1 <;> subst_eqs <;> simp_all [is_success]
  · intro pings cfg hs
    simp only [process] at *
    split_ifs at * <;> simp_all [is_success]
  · intro a b hab hs
    simp only [req, hab, is_success] at *
    cases hb : b.result <;> simp_all
  · intro a b hs
    rcases a with ⟨ra, ca⟩
    cases ra <;> simp_all [req, is_success]

/-- Witness for C9: the engine's fault reading has distance 0, the empty-batch
aggregation has distance 0, two `TIMEOUT` readings with different distances
compare equal, and two `OK` readings 4 cm apart compare equal iff their tags
and distances agree within tolerance. -/
theorem c9_witness :
    ((⟨UsResult.HW_FAULT, 0⟩ : Reading).cm = 0) ∧
    (process [] {}).cm = 0 ∧
    req ⟨UsResult.TIMEOUT, 3⟩ ⟨UsResult.TIMEOUT, 7⟩ = true ∧
    (req ⟨UsResult.OK, 3⟩ ⟨UsResult.OK, 7⟩ = true ↔
      (⟨UsResult.OK, (3 : ℚ)⟩ : Reading).result = (⟨UsResult.OK, (7 : ℚ)⟩ : Reading).result ∧
        |(3 : ℚ) - 7| < 1 / 1000) :=
  ⟨c9_reading_semantics.1 {} ansFailFirst _ _ _ ping_once_ansFailFirst (by simp [is_success]),
   c9_reading_semantics.2.1 [] {} (by simp [process, is_success]),
   c9_reading_semantics.2.2.1 ⟨UsResult.TIMEOUT, 3⟩ ⟨UsResult.TIMEOUT, 7⟩ rfl
     (by simp [is_success]),
   c9_reading_semantics.2.2.2 ⟨UsResult.OK, 3⟩ ⟨UsResult.OK, 7⟩ (by simp [is_success])⟩

/-- C10: whatever the collaborators do, a completed `ping_once` carries one of
the five engine tags, never `WEAK_SIGNAL`, `HIGH_VARIANCE` or
`INSUFFICIENT_SAMPLES` — those originate only in the aggregator. -/
theorem c10_engine_tag_range (cfg : UsConfig) (l : List Ans) (r : Reading)
    (lg : List Ev) (rest : List Ans)
    (h : ping_once cfg l = some (r, lg, rest)) :
    (r.result = UsResult.OK ∨ r.result = UsResult.TIMEOUT ∨ r.result = UsResult.OUT_OF_RANGE ∨
      r.result = UsResult.ECHO_STUCK ∨ r.result = UsResult.HW_FAULT) ∧
    r.result ≠ UsResult.WEAK_SIGNAL ∧ r.result ≠ UsResult.HIGH_VARIANCE ∧
      r.result ≠ UsResult.INSUFFICIENT_SAMPLES := by
  rcases ping_once_cases h with h1 | h1 | h1 | h1 | h1 <;> subst_eqs <;> simp_all

/-- Witness for C10 on the one-answer failing environment. -/
theorem c10_witness :
    ((⟨UsResult.HW_FAULT, 0⟩ : Reading).result = UsResult.OK ∨
      (⟨UsResult.HW_FAULT, 0⟩ : Reading).result = UsResult.TIMEOUT ∨
      (⟨UsResult.HW_FAULT, 0⟩ : Reading).result = UsResult.OUT_OF_RANGE ∨
      (⟨UsResult.HW_FAULT, 0⟩ : Reading).result = UsResult.ECHO_STUCK ∨
      (⟨UsResult.HW_FAULT, 0⟩ : Reading).result = UsResult.HW_FAULT) ∧
    (⟨UsResult.HW_FAULT, 0⟩ : Reading).result ≠ UsResult.WEAK_SIGNAL :=
  ⟨(c10_engine_tag_range {} ansFailFirst _ _ _ ping_once_ansFailFirst).1,
   (c10_engine_tag_range {} ansFailFirst _ _ _ ping_once_ansFailFirst).2.1⟩

end UsSpec
